import Mathlib

/-
Verification of the sliding-moving-average filter-chain target
(src/target_sma.c of the giesselmann/collectd fork).

The C unit is embedded shallowly:
- machine doubles are modelled as exact rationals (ℚ);
- heap pointers that may be NULL are modelled as Option;
- `none` as the result of an operation models undefined behavior
  (NULL dereference, out-of-bounds access, division/modulo by zero);
- calloc outcomes are explicit Boolean parameters, so both the success
  and the failure path of the lazy initialization are expressible.

The host pipeline (filter_chain.h, plugin.h, oconfig, libc) is not part of
src/; the few constants and helpers taken from it are marked
"Modelled from the spec" in their doc comments.
-/

namespace TargetSma

/-- Modelled from the spec: POSIX `EINVAL` (errno.h is not part of src/);
the code returns `-EINVAL` on invalid arguments and allocation failure. -/
def EINVAL : Int := 22

/-- Modelled from the spec: the status code of the host filter chain
(filter_chain.h is not part of src/) signalling "continue processing";
the spec says the transform always returns the "continue" status on success. -/
def FC_TARGET_CONTINUE : Int := 0

/-- Modelled from the spec: the numeric-gauge value-kind tag of the host
(plugin.h is not part of src/).  Only its distinctness from the other
value-kind tags matters to the transform. -/
def DS_TYPE_GAUGE : Int := 1

/-- Modelled from the spec: a non-gauge value-kind tag (counter), used for
concrete inputs exercising the non-gauge pass-through. -/
def DS_TYPE_COUNTER : Int := 0

/-- Modelled from the spec: `tolower` on one ASCII character (libc, not part
of src/). -/
def lowerChar (c : Char) : Char :=
  if c.isUpper then Char.ofNat (c.toNat + 32) else c

/-- Modelled from the spec: `strcasecmp(a, b) == 0` (libc, not part of src/),
i.e. case-insensitive string equality. -/
def strcaseEq (a b : String) : Bool :=
  a.data.map lowerChar == b.data.map lowerChar

/-- One data source of a data set: `ds->ds[i]` provides a channel name and a
value-kind tag. -/
structure Channel where
  name : String
  type : Int
  deriving DecidableEq

/-- The C struct `tsma_data_s`: the per-instance state.  `window_ptr` is the cursor
array, `window_buffer` the flattened channel-major sample buffer,
`data_sources` the allow-list (NULL ↔ `none`); `data_sources_num` is implicit
as the list length. -/
structure TsmaData where
  window : Int
  window_ptr : Option (List Nat)
  window_buffer : Option (List ℚ)
  data_sources : Option (List String)
  deriving DecidableEq

/-- One `oconfig_value_t`: a number, a string or a truth value. -/
inductive OConfigValue where
  | num (q : ℚ)
  | str (s : String)
  | boolean (b : Bool)
  deriving DecidableEq

/-- One `oconfig_item_t` child of the target's configuration block: a key and
its argument values (grandchildren are never inspected by this unit). -/
structure OConfigItem where
  key : String
  values : List OConfigValue
  deriving DecidableEq

/-- C double-to-int conversion truncates toward zero: on an exact rational
this is T-division of the numerator by the denominator. -/
def truncInt (q : ℚ) : Int := Int.tdiv q.num (q.den : Int)

/-- Model of `tsma_config_set_int`: requires exactly one numeric argument, else fails
with status -1 leaving `*ret` unchanged (modelled by `none`); on success the
number is stored through the `int *ret` out-parameter (modelled by `some`). -/
def tsma_config_set_int (ci : OConfigItem) : Option Int :=
  match ci.values with
  | [OConfigValue.num q] => some (truncInt q)
  | _ => none

/-- String test used by `tsma_config_add_data_source`'s type check. -/
def oconfigIsString : OConfigValue → Bool
  | OConfigValue.str _ => true
  | _ => false

/-- Model of `tsma_config_add_data_source`: needs at least one argument, all of string
type, and appends the strings to the allow-list (realloc + sstrdup; sstrdup
aborts rather than fail, so string copying is modelled as always succeeding).
`none` models the status -1 error return. -/
def tsma_config_add_data_source (cur : Option (List String)) (ci : OConfigItem) :
    Option (Option (List String)) :=
  if ci.values.length < 1 then none
  else if ci.values.all oconfigIsString then
    some (some (cur.getD [] ++ ci.values.filterMap fun v =>
      match v with
      | OConfigValue.str s => some s
      | _ => none))
  else none

/-- Model of `tsma_destroy`: the argument is the `void **user_data` cell (`none` models
a NULL cell pointer, `some c` a cell holding `c`).  Returns the status, the
new cell contents, and the number of heap blocks released (one per allow-list
string, one for the string array, one per non-NULL buffer/cursor array, one
for the struct itself; `s free` of NULL releases nothing). -/
def tsma_destroy (user_data : Option (Option TsmaData)) :
    Int × Option (Option TsmaData) × Nat :=
  match user_data with
  | none => (-EINVAL, none, 0)
  | some cell =>
    match cell with
    | none => (0, some none, 0)
    | some data =>
      let freed :=
        (match data.data_sources with
         | some l => l.length + 1
         | none => 0) +
        (match data.window_buffer with
         | some _ => 1
         | none => 0) +
        (match data.window_ptr with
         | some _ => 1
         | none => 0) + 1
      (0, some none, freed)

/-- The option-processing loop of `tsma_create`: `Window` via
`tsma_config_set_int` into `data->window`, `DataSource` via
`tsma_config_add_data_source`, unknown keys logged and ignored; the loop
breaks on the first non-zero status, upon which `tsma_create` destroys the
partial state and reports the error (`none`). -/
def tsma_create_loop : List OConfigItem → TsmaData → Option TsmaData
  | [], data => some data
  | child :: rest, data =>
    if strcaseEq "Window" child.key then
      match tsma_config_set_int child with
      | some w => tsma_create_loop rest { data with window := w }
      | none => none
    else if strcaseEq "DataSource" child.key then
      match tsma_config_add_data_source data.data_sources child with
      | some srcs => tsma_create_loop rest { data with data_sources := srcs }
      | none => none
    else
      tsma_create_loop rest data

/-- Model of `tsma_create`: calloc zeroes the struct, then `window` is set to 1 and the
pointers to NULL before the children are processed.  `none` models a non-zero
error status (no usable instance). -/
def tsma_create (children : List OConfigItem) : Option TsmaData :=
  tsma_create_loop children
    { window := 1, window_ptr := none, window_buffer := none, data_sources := none }

/-- Sum of `buffer[off] + ... + buffer[off+n-1]`: the window summation loop of
`tsma_invoke_gauge` (well-defined when `off + n ≤ buffer.length`, which the
caller's bound check guarantees). -/
def sumRange (buffer : List ℚ) (off n : Nat) : ℚ := ((buffer.drop off).take n).sum

/-- The window of channel `i` inside the flattened channel-major buffer:
`buffer[i*window .. i*window + window)`. -/
def windowSlice (window i : Nat) (buffer : List ℚ) : List ℚ :=
  (buffer.drop (i * window)).take window

/-- Model of `tsma_invoke_gauge`: stores the new value `values[i]` at the cursor slot of
channel `i`, advances the cursor modulo `window`, recomputes the window sum and
writes the mean back into `values[i]`.  `none` models undefined behavior:
NULL cursor array, modulo by zero (`window = 0`), or an out-of-bounds buffer,
cursor or value access. -/
def tsma_invoke_gauge (window : Nat) (buffer : List ℚ) (ptrs : Option (List Nat))
    (values : List ℚ) (i : Nat) : Option (List ℚ × List Nat × List ℚ) :=
  match ptrs with
  | none => none
  | some ptr =>
    if window = 0 then none
    else
      match ptr[i]?, values[i]? with
      | some p, some v =>
        if i * window + p < buffer.length ∧ i * window + window ≤ buffer.length then
          let buffer2 := buffer.set (i * window + p) v
          let ptr2 := ptr.set i ((p + 1) % window)
          let mean := sumRange buffer2 (i * window) window / (window : ℚ)
          some (buffer2, ptr2, values.set i mean)
        else none
      | _, _ => none

/-- The channel selector: with a NULL allow-list every channel is selected,
otherwise the inner loop of `tsma_invoke` looks for a case-insensitive match
of the channel name among the configured data sources. -/
def is_selected (data_sources : Option (List String)) (name : String) : Bool :=
  match data_sources with
  | none => true
  | some l => l.any fun s => strcaseEq name s

/-- The per-channel loop of `tsma_invoke` (lines 222-240): skip unselected
channels, run `tsma_invoke_gauge` on selected gauge channels, log and skip
selected non-gauge channels. -/
def tsma_process (data_sources : Option (List String)) (window : Nat) :
    List Channel → Nat → List ℚ → Option (List Nat) → List ℚ →
    Option (List ℚ × Option (List Nat) × List ℚ)
  | [], _, buffer, ptrs, values => some (buffer, ptrs, values)
  | ch :: rest, i, buffer, ptrs, values =>
    if is_selected data_sources ch.name then
      if ch.type = DS_TYPE_GAUGE then
        match tsma_invoke_gauge window buffer ptrs values i with
        | some (buffer2, ptr2, values2) =>
          tsma_process data_sources window rest (i + 1) buffer2 (some ptr2) values2
        | none => none
      else
        tsma_process data_sources window rest (i + 1) buffer ptrs values
    else
      tsma_process data_sources window rest (i + 1) buffer ptrs values

/-- The body of `tsma_invoke` after the NULL checks: lazy allocation of the
cursor array (`calloc(1, window * sizeof(int))`, i.e. `window` zeroed ints)
and of the buffer (`calloc(ds_num, window * sizeof(double))`, i.e.
`ds_num * window` zeroed doubles) when `window_buffer` is still NULL — both
assignments happen before the failure check — followed by the per-channel
loop.  The two Booleans model the outcomes of the two calloc calls. -/
def tsma_invoke_core (alloc_ptr_ok alloc_buffer_ok : Bool) (ds : List Channel)
    (vl : List ℚ) (data : TsmaData) : Option (Int × List ℚ × TsmaData) :=
  let window := data.window.toNat
  match data.window_buffer with
  | some buffer =>
    match tsma_process data.data_sources window ds 0 buffer data.window_ptr vl with
    | some (buffer2, ptr2, vl2) =>
      some (FC_TARGET_CONTINUE, vl2,
        { data with window_buffer := some buffer2, window_ptr := ptr2 })
    | none => none
  | none =>
    let new_ptr : Option (List Nat) :=
      if alloc_ptr_ok then some (List.replicate window 0) else none
    let new_buffer : Option (List ℚ) :=
      if alloc_buffer_ok then some (List.replicate (ds.length * window) 0) else none
    match new_buffer, new_ptr with
    | some buffer, some ptr =>
      match tsma_process data.data_sources window ds 0 buffer (some ptr) vl with
      | some (buffer2, ptr2, vl2) =>
        some (FC_TARGET_CONTINUE, vl2,
          { data with window_buffer := some buffer2, window_ptr := ptr2 })
      | none => none
    | _, _ =>
      some (-EINVAL, vl, { data with window_buffer := new_buffer, window_ptr := new_ptr })

/-- Model of `tsma_invoke`: NULL checks on the data set, the value list and the
user-data cell (and on the instance pointer stored in the cell) return
`-EINVAL` without touching anything; otherwise the body runs.  The result is
the status, the (possibly rewritten) value list and the user-data cell;
`none` models a crash / undefined behavior. -/
def tsma_invoke (alloc_ptr_ok alloc_buffer_ok : Bool) (ds : Option (List Channel))
    (vl : Option (List ℚ)) (user_data : Option (Option TsmaData)) :
    Option (Int × Option (List ℚ) × Option (Option TsmaData)) :=
  match ds, vl, user_data with
  | some dsv, some vlv, some cell =>
    match cell with
    | none => some (-EINVAL, some vlv, some none)
    | some data =>
      match tsma_invoke_core alloc_ptr_ok alloc_buffer_ok dsv vlv data with
      | some (st, vl2, data2) => some (st, some vl2, some (some data2))
      | none => none
  | _, _, _ => some (-EINVAL, vl, user_data)

/-- Cursor lookup through the possibly-NULL cursor array. -/
def ptrGet (ptrs : Option (List Nat)) (k : Nat) : Option Nat :=
  match ptrs with
  | none => none
  | some l => l[k]?

/-- Claim C9: teardown is idempotent — destroying an instance succeeds, nulls
the user-data cell, and a second destroy on the already-torn-down cell is a
successful no-op that releases zero heap blocks. -/
theorem tsma_destroy_idempotent (data : TsmaData) :
    (tsma_destroy (some (some data))).1 = 0 ∧
    (tsma_destroy (some (some data))).2.1 = some none ∧
    tsma_destroy ((tsma_destroy (some (some data))).2.1) = (0, some none, 0) :=
  ⟨rfl, rfl, rfl⟩

/-- Claim C8: a NULL data set, value list, user-data cell, or NULL instance
state makes the per-record entry point return the negative status `-EINVAL`
immediately, with the record and the instance state unchanged. -/
theorem tsma_invoke_null_args (aP aB : Bool) (ds : Option (List Channel))
    (vl : Option (List ℚ)) (ud : Option (Option TsmaData))
    (h : ds = none ∨ vl = none ∨ ud = none ∨ ud = some none) :
    tsma_invoke aP aB ds vl ud = some (-EINVAL, vl, ud) ∧ -EINVAL < 0 := by
  refine ⟨?_, by decide⟩
  rcases h with h | h | h | h <;> subst h
  · rfl
  · cases ds <;> rfl
  · cases ds <;> try rfl
    cases vl <;> rfl
  · cases ds <;> try rfl
    cases vl <;> rfl

/-- Witness for C8 at a concrete input: a NULL data set. -/
theorem tsma_invoke_null_args_witness :
    ((none : Option (List Channel)) = none ∨ (some [(3 : ℚ)] : Option (List ℚ)) = none ∨
      (some none : Option (Option TsmaData)) = none ∨
      (some none : Option (Option TsmaData)) = some none) ∧
    (tsma_invoke true true none (some [(3 : ℚ)]) (some none) =
        some (-EINVAL, some [(3 : ℚ)], some none) ∧ -EINVAL < 0) :=
  ⟨Or.inl rfl, tsma_invoke_null_args true true none (some [(3 : ℚ)]) (some none) (Or.inl rfl)⟩

/-- Counterexample to claim C5: the configuration `Window 0` passes
`tsma_config_set_int`'s arity/type check (one numeric argument), so
construction succeeds and yields an instance whose stored `window` is 0,
which is not a positive integer. -/
theorem tsma_window_zero_accepted :
    tsma_create [{ key := "Window", values := [OConfigValue.num 0] }] =
      some { window := 0, window_ptr := none, window_buffer := none,
             data_sources := none } ∧
    ¬ (1 ≤ (0 : Int)) := by
  exact ⟨by decide, by decide⟩

/-- Claim C5 (amended): when the `Window` option is omitted the stored
`window` is the default 1; but a `Window` option with one numeric argument is
accepted without any positivity check, so a non-positive value is stored
as its truncation, yielding a successfully constructed instance with
`window ≤ 0`. -/
theorem tsma_window_default_one_and_nonpositive_accepted :
    tsma_create [] =
      some { window := 1, window_ptr := none, window_buffer := none,
             data_sources := none } ∧
    ∀ q : ℚ, q ≤ 0 →
      ∃ d, tsma_create [{ key := "Window", values := [OConfigValue.num q] }] = some d ∧
        d.window = truncInt q ∧ d.window ≤ 0 := by
  refine ⟨rfl, fun q hq => ⟨_, rfl, rfl, ?_⟩⟩
  show truncInt q ≤ 0
  unfold truncInt
  have hnum : q.num ≤ 0 := Rat.num_nonpos.mpr hq
  have hden : (0 : Int) ≤ (q.den : Int) := Int.ofNat_nonneg q.den
  have hneg : (0 : Int) ≤ (-q.num).tdiv (q.den : Int) :=
    Int.tdiv_nonneg (by omega) hden
  have hrw : (-q.num).tdiv (q.den : Int) = -(q.num.tdiv (q.den : Int)) := Int.neg_tdiv _ _
  omega

/-- Witness for the amended C5 at the concrete input `Window -3`. -/
theorem tsma_window_nonpositive_witness :
    ((-3 : ℚ) ≤ 0) ∧
    ∃ d, tsma_create [{ key := "Window", values := [OConfigValue.num (-3)] }] = some d ∧
      d.window = truncInt (-3) ∧ d.window ≤ 0 :=
  ⟨by norm_num,
    tsma_window_default_one_and_nonpositive_accepted.2 (-3) (by norm_num)⟩

/-- Claim C10: a `Window` option with exactly one numeric argument is accepted
and the value is stored truncated toward zero; in particular the fractional
value 2.5 = 5/2 is not rejected and yields `window = 2`. -/
theorem tsma_window_truncates_fractional :
    (∀ q : ℚ, tsma_create [{ key := "Window", values := [OConfigValue.num q] }] =
      some { window := truncInt q, window_ptr := none, window_buffer := none,
             data_sources := none }) ∧
    tsma_create [{ key := "Window", values := [OConfigValue.num (mkRat 5 2)] }] =
      some { window := 2, window_ptr := none, window_buffer := none,
             data_sources := none } := by
  constructor
  · intro q; rfl
  · decide

/-- One update of a single channel's window in isolation: overwrite the slot
under the cursor, advance the cursor modulo the window length.  This is the
action of `tsma_invoke_gauge` on the window slice of the updated channel. -/
def chanStep (window : Nat) (st : List ℚ × Nat) (v : ℚ) : List ℚ × Nat :=
  (st.1.set st.2 v, (st.2 + 1) % window)

theorem chanFold_length (N : Nat) (ws : List ℚ) :
    ∀ (b : List ℚ) (q : Nat), (List.foldl (chanStep N) (b, q) ws).1.length = b.length := by
  induction ws with
  | nil => intro b q; rfl
  | cons w ws ih =>
    intro b q
    simpa [chanStep] using ih (b.set q w) ((q + 1) % N)

theorem chanFold_cursor (N : Nat) (hN : 0 < N) (ws : List ℚ) :
    ∀ (b : List ℚ) (q : Nat), q < N →
      (List.foldl (chanStep N) (b, q) ws).2 = (q + ws.length) % N := by
  induction ws with
  | nil =>
    intro b q hq
    simp [List.foldl, Nat.mod_eq_of_lt hq]
  | cons w ws ih =>
    intro b q hq
    simp only [List.foldl_cons, chanStep]
    rw [ih (b.set q w) ((q + 1) % N) (Nat.mod_lt _ hN), Nat.mod_add_mod]
    congr 1
    simp only [List.length_cons]
    omega

theorem chanFold_buffer_mid (N : Nat) :
    ∀ (ws done rest : List ℚ), ws.length ≤ rest.length →
      done.length + rest.length = N →
      (List.foldl (chanStep N) (done ++ rest, done.length) ws).1 =
        done ++ ws ++ rest.drop ws.length := by
  intro ws
  induction ws with
  | nil => intro done rest _ _; simp
  | cons w ws ih =>
    intro done rest hle hN
    cases rest with
    | nil => simp at hle
    | cons r rest =>
      simp only [List.foldl_cons, chanStep]
      have hset : (done ++ r :: rest).set done.length w = done ++ w :: rest := by
        rw [List.set_append_right _ _ (Nat.le_refl _)]
        simp
      by_cases hc : done.length + 1 < N
      · have hmod : (done.length + 1) % N = done.length + 1 := Nat.mod_eq_of_lt hc
        have h1 : ws.length ≤ rest.length := by
          simp only [List.length_cons] at hle
          omega
        have h2 : (done ++ [w]).length + rest.length = N := by
          simp only [List.length_append, List.length_cons, List.length_nil] at hN ⊢
          omega
        have hih := ih (done ++ [w]) rest h1 h2
        simp only [List.length_append, List.length_cons, List.length_nil,
          Nat.add_zero] at hih
        have hassoc : done ++ w :: rest = (done ++ [w]) ++ rest := by simp
        rw [hset, hmod, hassoc, hih]
        simp [List.append_assoc]
      · have hrl : rest.length = 0 := by
          simp only [List.length_append, List.length_cons] at hN
          omega
        have hwl : ws.length = 0 := by
          simp only [List.length_cons] at hle
          omega
        have hrest : rest = [] := List.eq_nil_of_length_eq_zero hrl
        have hws : ws = [] := List.eq_nil_of_length_eq_zero hwl
        subst hrest
        subst hws
        simp [hset]

theorem chanFold_cold (N : Nat) (ws : List ℚ) (hle : ws.length ≤ N) :
    (List.foldl (chanStep N) (List.replicate N (0 : ℚ), 0) ws).1 =
      ws ++ List.replicate (N - ws.length) (0 : ℚ) := by
  have h := chanFold_buffer_mid N ws [] (List.replicate N (0 : ℚ))
    (by simpa using hle) (by simp)
  simpa using h

theorem chanFold_cold_sum (N : Nat) (ws : List ℚ) (hle : ws.length ≤ N) :
    (List.foldl (chanStep N) (List.replicate N (0 : ℚ), 0) ws).1.sum = ws.sum := by
  rw [chanFold_cold N ws hle]
  simp

theorem chanFold_fullblock_sum (N : Nat) (b ws : List ℚ) (q : Nat)
    (hb : b.length = N) (hq : q < N) (hws : ws.length = N) :
    (List.foldl (chanStep N) (b, q) ws).1.sum = ws.sum := by
  have hqle : q ≤ b.length := by omega
  have hsplit : b.take q ++ b.drop q = b := List.take_append_drop q b
  have hdlen : (b.take q).length = q := by
    simp [List.length_take]
    omega
  have hrlen : (b.drop q).length = N - q := by
    simp [List.length_drop, hb]
  have hwsplit : ws.take (N - q) ++ ws.drop (N - q) = ws := List.take_append_drop _ ws
  have hw1len : (ws.take (N - q)).length = N - q := by
    simp [List.length_take]
    omega
  have hw2len : (ws.drop (N - q)).length = q := by
    simp [List.length_drop, hws]
    omega
  have hstate : (b, q) = (b.take q ++ b.drop q, (b.take q).length) := by
    rw [hsplit, hdlen]
  rw [hstate, ← hwsplit, List.foldl_append]
  have hmid1 := chanFold_buffer_mid N (ws.take (N - q)) (b.take q) (b.drop q)
    (by omega) (by omega)
  have hcur1 := chanFold_cursor N (by omega) (ws.take (N - q))
    (b.take q ++ b.drop q) (b.take q).length (by omega)
  set st1 := List.foldl (chanStep N)
    (b.take q ++ b.drop q, (b.take q).length) (ws.take (N - q)) with hst1
  have hbuf1 : st1.1 = b.take q ++ ws.take (N - q) := by
    rw [hmid1, hw1len, List.drop_eq_nil_of_le (by omega)]
    simp
  have hcursor1 : st1.2 = 0 := by
    rw [hcur1, hdlen, hw1len]
    have hsum : q + (N - q) = N := by omega
    rw [hsum, Nat.mod_self]
  have hsteta : st1 = (st1.1, st1.2) := rfl
  rw [hsteta, hbuf1, hcursor1]
  have hmid2 := chanFold_buffer_mid N (ws.drop (N - q)) []
    (b.take q ++ ws.take (N - q))
    (by rw [hw2len, List.length_append, hdlen, hw1len]; omega)
    (by rw [List.length_nil, List.length_append, hdlen, hw1len]; omega)
  simp only [List.nil_append, List.length_nil] at hmid2
  rw [hmid2, hw2len, List.drop_left' hdlen]
  rw [List.sum_append, List.sum_append, add_comm]

theorem chanFold_steady_sum (N : Nat) (b vs : List ℚ) (q : Nat)
    (hb : b.length = N) (hq : q < N) (hlen : N ≤ vs.length) :
    (List.foldl (chanStep N) (b, q) vs).1.sum =
      (vs.drop (vs.length - N)).sum := by
  have hN : 0 < N := by omega
  have hsplit : vs.take (vs.length - N) ++ vs.drop (vs.length - N) = vs :=
    List.take_append_drop _ vs
  have hsuf : (vs.drop (vs.length - N)).length = N := by
    rw [List.length_drop]
    omega
  conv_lhs => rw [← hsplit]
  rw [List.foldl_append]
  set st1 := List.foldl (chanStep N) (b, q) (vs.take (vs.length - N)) with hst1
  have hlen1 : st1.1.length = N := by
    rw [hst1, chanFold_length, hb]
  have hcur1 : st1.2 < N :=
    hst1 ▸ (chanFold_cursor N hN _ b q hq) ▸ Nat.mod_lt _ hN
  have hsteta : st1 = (st1.1, st1.2) := rfl
  rw [hsteta]
  exact chanFold_fullblock_sum N st1.1 (vs.drop (vs.length - N)) st1.2 hlen1 hcur1 hsuf

theorem windowSlice_length (N i : Nat) (buf : List ℚ) (h : i * N + N ≤ buf.length) :
    (windowSlice N i buf).length = N := by
  rw [windowSlice, List.length_take, List.length_drop]
  omega

theorem windowSlice_set (N i p : Nat) (buf : List ℚ) (v : ℚ)
    (hp : p < N) (hbound : i * N + N ≤ buf.length) :
    windowSlice N i (buf.set (i * N + p) v) = (windowSlice N i buf).set p v := by
  apply List.ext_getElem?
  intro j
  simp only [windowSlice, List.getElem?_take, List.getElem?_drop, List.getElem?_set,
    List.length_take, List.length_drop, List.length_set]
  split_ifs <;> first | rfl | omega

/-- Feeding one fresh record through `tsma_invoke_gauge` for channel `i` of
`C` channels: the record's value list carries the new sample `v` at index `i`;
the state is the flat buffer, the cursor array and the mean most recently
written back into a record (`none` once undefined behavior occurred). -/
def gaugeStep (N C i : Nat) (st : Option (List ℚ × List Nat × ℚ)) (v : ℚ) :
    Option (List ℚ × List Nat × ℚ) :=
  match st with
  | none => none
  | some (buf, ptr, _) =>
    match tsma_invoke_gauge N buf (some ptr) ((List.replicate C (0 : ℚ)).set i v) i with
    | some (buf2, ptr2, vals2) =>
      match vals2[i]? with
      | some m => some (buf2, ptr2, m)
      | none => none
    | none => none

/-- A sequence of updates on channel `i` starting from the freshly allocated
state of `tsma_invoke`: a zeroed `C * N` buffer, `P` zeroed cursors (the
code's own allocation uses `P = window`), and an initial reported mean 0. -/
def gaugeRun (N C P i : Nat) (vs : List ℚ) : Option (List ℚ × List Nat × ℚ) :=
  vs.foldl (gaugeStep N C i) (some (List.replicate (C * N) 0, List.replicate P 0, 0))

theorem gaugeStep_some (N C i : Nat) (buf : List ℚ) (ptr : List Nat) (m v : ℚ) (p : Nat)
    (hN : 0 < N) (hiC : i < C) (hbound : i * N + N ≤ buf.length)
    (hptr : ptr[i]? = some p) (hp : p < N) :
    gaugeStep N C i (some (buf, ptr, m)) v =
      some (buf.set (i * N + p) v, ptr.set i ((p + 1) % N),
        (windowSlice N i (buf.set (i * N + p) v)).sum / (N : ℚ)) := by
  have hvals : ((List.replicate C (0 : ℚ)).set i v)[i]? = some v :=
    List.getElem?_set_self (by simpa using hiC)
  have hvals2 : (((List.replicate C (0 : ℚ)).set i v).set i
      (sumRange (buf.set (i * N + p) v) (i * N) N / (N : ℚ)))[i]? =
      some (sumRange (buf.set (i * N + p) v) (i * N) N / (N : ℚ)) :=
    List.getElem?_set_self (by simpa using hiC)
  simp only [gaugeStep, tsma_invoke_gauge, hptr, hvals]
  rw [if_neg (by omega)]
  rw [if_pos ⟨by omega, hbound⟩]
  simp only [hvals2]
  rfl

theorem gaugeFold_bridge (N C i : Nat) (hN : 0 < N) (hiC : i < C) :
    ∀ (vs : List ℚ) (buf : List ℚ) (ptr : List Nat) (m : ℚ) (p : Nat),
      i * N + N ≤ buf.length → ptr[i]? = some p → p < N →
      ∃ buf2 ptr2 m2,
        List.foldl (gaugeStep N C i) (some (buf, ptr, m)) vs = some (buf2, ptr2, m2) ∧
        windowSlice N i buf2 =
          (List.foldl (chanStep N) (windowSlice N i buf, p) vs).1 ∧
        (vs = [] → m2 = m) ∧
        (vs ≠ [] →
          m2 = (List.foldl (chanStep N) (windowSlice N i buf, p) vs).1.sum / (N : ℚ)) := by
  intro vs
  induction vs with
  | nil =>
    intro buf ptr m p _ _ _
    exact ⟨buf, ptr, m, rfl, rfl, fun _ => rfl, fun h => absurd rfl h⟩
  | cons v vs ih =>
    intro buf ptr m p hbound hptr hp
    have hiptr : i < ptr.length := by
      by_contra hcon
      rw [List.getElem?_eq_none (by omega)] at hptr
      cases hptr
    have hstep := gaugeStep_some N C i buf ptr m v p hN hiC hbound hptr hp
    have hbound1 : i * N + N ≤ (buf.set (i * N + p) v).length := by
      rw [List.length_set]
      exact hbound
    have hptr1 : (ptr.set i ((p + 1) % N))[i]? = some ((p + 1) % N) :=
      List.getElem?_set_self (by simpa using hiptr)
    have hp1 : (p + 1) % N < N := Nat.mod_lt _ hN
    obtain ⟨buf2, ptr2, m2, hfold, hslice, hmnil, hmcons⟩ :=
      ih (buf.set (i * N + p) v) (ptr.set i ((p + 1) % N))
        ((windowSlice N i (buf.set (i * N + p) v)).sum / (N : ℚ))
        ((p + 1) % N) hbound1 hptr1 hp1
    have hchan : List.foldl (chanStep N) (windowSlice N i buf, p) (v :: vs) =
        List.foldl (chanStep N)
          (windowSlice N i (buf.set (i * N + p) v), (p + 1) % N) vs := by
      rw [List.foldl_cons]
      congr 1
      show ((windowSlice N i buf).set p v, (p + 1) % N) = _
      rw [windowSlice_set N i p buf v hp hbound]
    refine ⟨buf2, ptr2, m2, ?_, ?_, ?_, ?_⟩
    · rw [List.foldl_cons, hstep, hfold]
    · rw [hchan]
      exact hslice
    · intro h
      exact absurd h (List.cons_ne_nil v vs)
    · intro _
      rw [hchan]
      by_cases hvs : vs = []
      · subst hvs
        rw [hmnil rfl]
        simp only [List.foldl_nil]
      · exact hmcons hvs

theorem windowSlice_replicate (N C i : Nat) (hiC : i < C) :
    windowSlice N i (List.replicate (C * N) (0 : ℚ)) = List.replicate N (0 : ℚ) := by
  rw [windowSlice, List.drop_replicate, List.take_replicate]
  congr 1
  have h2 : (i + 1) * N = i * N + N := Nat.succ_mul i N
  have h1 : (i + 1) * N ≤ C * N := mul_le_mul_right' (Nat.succ_le_of_lt hiC) N
  omega

theorem replicate_bound (N C i : Nat) (hiC : i < C) :
    i * N + N ≤ (List.replicate (C * N) (0 : ℚ)).length := by
  rw [List.length_replicate]
  have h2 : (i + 1) * N = i * N + N := Nat.succ_mul i N
  have h1 : (i + 1) * N ≤ C * N := mul_le_mul_right' (Nat.succ_le_of_lt hiC) N
  omega

/-- Claim C1: steady-state mean.  For every channel index `i` (valid for the
buffer and cursor allocation) and window size `N ≥ 1`, after `k ≥ N` updates
with values `vs` on that channel, the mean written back into the record by
`tsma_invoke_gauge` is the arithmetic mean of exactly the last `N` values of
`vs` — the expression depends only on `vs.drop (vs.length - N)`, hence is
independent of all older values. -/
theorem tsma_steady_state_mean (N C P i : Nat) (vs : List ℚ)
    (hN : 0 < N) (hiC : i < C) (hiP : i < P) (hlen : N ≤ vs.length) :
    ∃ buf ptr, gaugeRun N C P i vs =
      some (buf, ptr, (vs.drop (vs.length - N)).sum / (N : ℚ)) := by
  have hptr0 : (List.replicate P (0 : Nat))[i]? = some 0 :=
    List.getElem?_replicate_of_lt hiP
  obtain ⟨buf2, ptr2, m2, hfold, _, _, hmcons⟩ :=
    gaugeFold_bridge N C i hN hiC vs (List.replicate (C * N) 0)
      (List.replicate P 0) 0 0 (replicate_bound N C i hiC) hptr0 hN
  have hvs : vs ≠ [] := by
    intro h
    subst h
    simp at hlen
    omega
  have hm2 := hmcons hvs
  rw [windowSlice_replicate N C i hiC] at hm2
  rw [chanFold_steady_sum N (List.replicate N (0 : ℚ)) vs 0 (by simp) hN hlen] at hm2
  exact ⟨buf2, ptr2, by rw [gaugeRun, hfold, hm2]⟩

/-- Witness for C1: window 3, one channel, updates 1,2,3,4,5. -/
theorem tsma_steady_state_mean_witness :
    (0 < 3 ∧ 0 < 1 ∧ 3 ≤ ([1, 2, 3, 4, 5] : List ℚ).length) ∧
    ∃ buf ptr, gaugeRun 3 1 1 0 [1, 2, 3, 4, 5] =
      some (buf, ptr,
        (([1, 2, 3, 4, 5] : List ℚ).drop (([1, 2, 3, 4, 5] : List ℚ).length - 3)).sum /
          (3 : ℚ)) :=
  ⟨⟨by decide, by decide, by decide⟩,
    tsma_steady_state_mean 3 1 1 0 [1, 2, 3, 4, 5]
      (by decide) (by decide) (by decide) (by decide)⟩

/-- Claim C2: cold-start mean.  For a freshly initialized channel with window
size `N` (zeroed buffer and cursors), after `k < N` updates with values `vs`
the mean written back into the record is `vs.sum / N`: the unseen history
slots count as zeroes. -/
theorem tsma_cold_start_mean (N C P i : Nat) (vs : List ℚ)
    (hN : 0 < N) (hiC : i < C) (hiP : i < P) (hlen : vs.length < N) :
    ∃ buf ptr, gaugeRun N C P i vs = some (buf, ptr, vs.sum / (N : ℚ)) := by
  have hptr0 : (List.replicate P (0 : Nat))[i]? = some 0 :=
    List.getElem?_replicate_of_lt hiP
  obtain ⟨buf2, ptr2, m2, hfold, _, hmnil, hmcons⟩ :=
    gaugeFold_bridge N C i hN hiC vs (List.replicate (C * N) 0)
      (List.replicate P 0) 0 0 (replicate_bound N C i hiC) hptr0 hN
  by_cases hvs : vs = []
  · subst hvs
    refine ⟨buf2, ptr2, ?_⟩
    rw [gaugeRun, hfold, hmnil rfl]
    simp
  · have hm2 := hmcons hvs
    rw [windowSlice_replicate N C i hiC] at hm2
    rw [chanFold_cold_sum N vs (le_of_lt hlen)] at hm2
    exact ⟨buf2, ptr2, by rw [gaugeRun, hfold, hm2]⟩

/-- Witness for C2: window 4, one channel, updates 10,20 — the spec's own
example, whose mean is (10+20+0+0)/4. -/
theorem tsma_cold_start_mean_witness :
    (0 < 4 ∧ 0 < 1 ∧ ([10, 20] : List ℚ).length < 4) ∧
    ∃ buf ptr, gaugeRun 4 1 1 0 [10, 20] =
      some (buf, ptr, ([10, 20] : List ℚ).sum / (4 : ℚ)) :=
  ⟨⟨by decide, by decide, by decide⟩,
    tsma_cold_start_mean 4 1 1 0 [10, 20] (by decide) (by decide) (by decide) (by decide)⟩

theorem tsma_invoke_gauge_inv {w : Nat} {buf : List ℚ} {ptrs : Option (List Nat)}
    {vals : List ℚ} {i : Nat} {buf2 : List ℚ} {ptr2 : List Nat} {vals2 : List ℚ}
    (h : tsma_invoke_gauge w buf ptrs vals i = some (buf2, ptr2, vals2)) :
    0 < w ∧ ∃ ptr pp vv mean, ptrs = some ptr ∧ ptr[i]? = some pp ∧
      vals[i]? = some vv ∧ i * w + pp < buf.length ∧ i * w + w ≤ buf.length ∧
      buf2 = buf.set (i * w + pp) vv ∧ ptr2 = ptr.set i ((pp + 1) % w) ∧
      vals2 = vals.set i mean := by
  unfold tsma_invoke_gauge at h
  split at h
  · exact absurd h (by simp)
  next ptr =>
    split at h
    · exact absurd h (by simp)
    next hw =>
      split at h
      next pp vv hpi hvi =>
        split at h
        next hb =>
          obtain ⟨h1, h2, h3⟩ : _ ∧ _ ∧ _ := by simpa using h
          exact ⟨Nat.pos_of_ne_zero hw, ptr, pp, vv, _, rfl, hpi, hvi,
            hb.1, hb.2, h1.symm, h2.symm, h3.symm⟩
        next => exact absurd h (by simp)
      next => exact absurd h (by simp)

theorem tsma_process_low (dsrcs : Option (List String)) (w : Nat) :
    ∀ (chans : List Channel) (i0 : Nat) (buf : List ℚ) (ptrs : Option (List Nat))
      (vals b : List ℚ) (p : Option (List Nat)) (v : List ℚ),
      tsma_process dsrcs w chans i0 buf ptrs vals = some (b, p, v) →
      (∀ k, k < i0 → v[k]? = vals[k]?) ∧
      (∀ k, k < i0 → ptrGet p k = ptrGet ptrs k) ∧
      (∀ m, m < i0 * w → b[m]? = buf[m]?) := by
  intro chans
  induction chans with
  | nil =>
    intro i0 buf ptrs vals b p v h
    obtain ⟨h1, h2, h3⟩ : _ ∧ _ ∧ _ := by simpa [tsma_process] using h
    subst h1
    subst h2
    subst h3
    exact ⟨fun _ _ => rfl, fun _ _ => rfl, fun _ _ => rfl⟩
  | cons ch rest ih =>
    intro i0 buf ptrs vals b p v h
    simp only [tsma_process] at h
    have hweaken :
        tsma_process dsrcs w rest (i0 + 1) buf ptrs vals = some (b, p, v) →
        (∀ k, k < i0 → v[k]? = vals[k]?) ∧
        (∀ k, k < i0 → ptrGet p k = ptrGet ptrs k) ∧
        (∀ m, m < i0 * w → b[m]? = buf[m]?) := by
      intro hrec
      obtain ⟨hv, hp, hb⟩ := ih (i0 + 1) buf ptrs vals b p v hrec
      have e1 : (i0 + 1) * w = i0 * w + w := Nat.succ_mul _ _
      exact ⟨fun k hk => hv k (by omega), fun k hk => hp k (by omega),
        fun m hm => hb m (by omega)⟩
    by_cases hsel : is_selected dsrcs ch.name
    · rw [if_pos hsel] at h
      by_cases hty : ch.type = DS_TYPE_GAUGE
      · rw [if_pos hty] at h
        cases hg : tsma_invoke_gauge w buf ptrs vals i0 with
        | none =>
          rw [hg] at h
          simp at h
        | some trip =>
          obtain ⟨buf2, ptr2, vals2⟩ := trip
          rw [hg] at h
          obtain ⟨hv, hp, hb⟩ := ih (i0 + 1) buf2 (some ptr2) vals2 b p v h
          obtain ⟨hw, ptr, pp, vv, mean, hptrs, hpi, hvi, hlt, hle, hbuf2, hptr2, hvals2⟩ :=
            tsma_invoke_gauge_inv hg
          refine ⟨?_, ?_, ?_⟩
          · intro k hk
            rw [hv k (by omega), hvals2, List.getElem?_set_ne (by omega)]
          · intro k hk
            rw [hp k (by omega), hptrs]
            show ptr2[k]? = ptr[k]?
            rw [hptr2, List.getElem?_set_ne (by omega)]
          · intro m hm
            have e1 : (i0 + 1) * w = i0 * w + w := Nat.succ_mul _ _
            rw [hb m (by omega), hbuf2, List.getElem?_set_ne (by omega)]
      · rw [if_neg hty] at h
        exact hweaken h
    · rw [if_neg hsel] at h
      exact hweaken h

theorem tsma_process_skip_val (dsrcs : Option (List String)) (w : Nat) :
    ∀ (chans : List Channel) (i0 : Nat) (buf : List ℚ) (ptrs : Option (List Nat))
      (vals b : List ℚ) (p : Option (List Nat)) (v : List ℚ),
      tsma_process dsrcs w chans i0 buf ptrs vals = some (b, p, v) →
      ∀ j ch, chans[j]? = some ch →
        (is_selected dsrcs ch.name = false ∨ ch.type ≠ DS_TYPE_GAUGE) →
        v[i0 + j]? = vals[i0 + j]? := by
  intro chans
  induction chans with
  | nil =>
    intro i0 buf ptrs vals b p v _ j ch hj
    simp at hj
  | cons ch0 rest ih =>
    intro i0 buf ptrs vals b p v h j ch hj hcond
    simp only [tsma_process] at h
    cases j with
    | zero =>
      have hch : ch = ch0 := by
        simp only [List.getElem?_cons_zero, Option.some.injEq] at hj
        exact hj.symm
      subst hch
      by_cases hsel : is_selected dsrcs ch.name
      · have hng : ch.type ≠ DS_TYPE_GAUGE := by
          rcases hcond with hc | hc
          · rw [hsel] at hc
            cases hc
          · exact hc
        rw [if_pos hsel, if_neg hng] at h
        have := (tsma_process_low dsrcs w rest (i0 + 1) buf ptrs vals b p v h).1
        simpa using this i0 (by omega)
      · rw [if_neg (by simpa using hsel)] at h
        have := (tsma_process_low dsrcs w rest (i0 + 1) buf ptrs vals b p v h).1
        simpa using this i0 (by omega)
    | succ j =>
      have hj2 : rest[j]? = some ch := by simpa using hj
      have harith : i0 + (j + 1) = (i0 + 1) + j := by omega
      by_cases hsel : is_selected dsrcs ch0.name
      · rw [if_pos hsel] at h
        by_cases hty : ch0.type = DS_TYPE_GAUGE
        · rw [if_pos hty] at h
          cases hg : tsma_invoke_gauge w buf ptrs vals i0 with
          | none =>
            rw [hg] at h
            simp at h
          | some trip =>
            obtain ⟨buf2, ptr2, vals2⟩ := trip
            rw [hg] at h
            have hrec := ih (i0 + 1) buf2 (some ptr2) vals2 b p v h j ch hj2 hcond
            obtain ⟨-, ptr, pp, vv, mean, -, -, -, -, -, -, -, hvals2⟩ :=
              tsma_invoke_gauge_inv hg
            rw [harith, hrec, hvals2, List.getElem?_set_ne (by omega)]
        · rw [if_neg hty] at h
          rw [harith]
          exact ih (i0 + 1) buf ptrs vals b p v h j ch hj2 hcond
      · rw [if_neg (by simpa using hsel)] at h
        rw [harith]
        exact ih (i0 + 1) buf ptrs vals b p v h j ch hj2 hcond

theorem tsma_process_skip_state (dsrcs : Option (List String)) (w : Nat) :
    ∀ (chans : List Channel) (i0 : Nat) (buf : List ℚ) (ptrs : Option (List Nat))
      (vals b : List ℚ) (p : Option (List Nat)) (v : List ℚ),
      tsma_process dsrcs w chans i0 buf ptrs vals = some (b, p, v) →
      (∀ k q, ptrGet ptrs k = some q → q < w) →
      ∀ j ch, chans[j]? = some ch →
        (is_selected dsrcs ch.name = false ∨ ch.type ≠ DS_TYPE_GAUGE) →
        ptrGet p (i0 + j) = ptrGet ptrs (i0 + j) ∧
        (∀ m, (i0 + j) * w ≤ m → m < (i0 + j) * w + w → b[m]? = buf[m]?) := by
  intro chans
  induction chans with
  | nil =>
    intro i0 buf ptrs vals b p v _ _ j ch hj
    simp at hj
  | cons ch0 rest ih =>
    intro i0 buf ptrs vals b p v h hcur j ch hj hcond
    simp only [tsma_process] at h
    cases j with
    | zero =>
      have hch : ch = ch0 := by
        simp only [List.getElem?_cons_zero, Option.some.injEq] at hj
        exact hj.symm
      subst hch
      simp only [Nat.add_zero]
      have hfromlow :
          tsma_process dsrcs w rest (i0 + 1) buf ptrs vals = some (b, p, v) →
          ptrGet p i0 = ptrGet ptrs i0 ∧
          (∀ m, i0 * w ≤ m → m < i0 * w + w → b[m]? = buf[m]?) := by
        intro hrec
        obtain ⟨-, hp, hb⟩ := tsma_process_low dsrcs w rest (i0 + 1) buf ptrs vals b p v hrec
        have e1 : (i0 + 1) * w = i0 * w + w := Nat.succ_mul _ _
        refine ⟨hp i0 (by omega), fun m hm1 hm2 => hb m (by omega)⟩
      by_cases hsel : is_selected dsrcs ch.name
      · have hng : ch.type ≠ DS_TYPE_GAUGE := by
          rcases hcond with hc | hc
          · rw [hsel] at hc
            cases hc
          · exact hc
        rw [if_pos hsel, if_neg hng] at h
        exact hfromlow h
      · rw [if_neg (by simpa using hsel)] at h
        exact hfromlow h
    | succ j =>
      have hj2 : rest[j]? = some ch := by simpa using hj
      have harith : i0 + (j + 1) = (i0 + 1) + j := by omega
      by_cases hsel : is_selected dsrcs ch0.name
      · rw [if_pos hsel] at h
        by_cases hty : ch0.type = DS_TYPE_GAUGE
        · rw [if_pos hty] at h
          cases hg : tsma_invoke_gauge w buf ptrs vals i0 with
          | none =>
            rw [hg] at h
            simp at h
          | some trip =>
            obtain ⟨buf2, ptr2, vals2⟩ := trip
            rw [hg] at h
            obtain ⟨hwpos, ptr, pp, vv, mean, hptrs, hpi, hvi, hlt, hle, hbuf2, hptr2, hvals2⟩ :=
              tsma_invoke_gauge_inv hg
            have hpp : pp < w := by
              apply hcur i0 pp
              rw [hptrs]
              exact hpi
            have hcur2 : ∀ k q, ptrGet (some ptr2) k = some q → q < w := by
              intro k q hk
              have hk2 : ptr2[k]? = some q := hk
              rw [hptr2] at hk2
              by_cases hki : k = i0
              · subst hki
                rw [List.getElem?_set, if_pos rfl] at hk2
                by_cases hkl : k < ptr.length
                · rw [if_pos hkl] at hk2
                  obtain rfl : (pp + 1) % w = q := by simpa using hk2
                  exact Nat.mod_lt _ hwpos
                · rw [if_neg hkl] at hk2
                  cases hk2
              · rw [List.getElem?_set_ne (by omega)] at hk2
                refine hcur k q ?_
                rw [hptrs]
                exact hk2
            obtain ⟨hp, hb⟩ := ih (i0 + 1) buf2 (some ptr2) vals2 b p v h hcur2 j ch hj2 hcond
            have e1 : (i0 + 1) * w = i0 * w + w := Nat.succ_mul _ _
            have e2 : (i0 + 1) * w ≤ (i0 + 1 + j) * w := mul_le_mul_right' (by omega) w
            constructor
            · rw [harith, hp, hptrs]
              show ptr2[i0 + 1 + j]? = ptr[i0 + 1 + j]?
              rw [hptr2, List.getElem?_set_ne (by omega)]
            · intro m hm1 hm2
              rw [harith] at hm1 hm2
              rw [hb m hm1 hm2, hbuf2, List.getElem?_set_ne (by omega)]
        · rw [if_neg hty] at h
          rw [harith]
          exact ih (i0 + 1) buf ptrs vals b p v h hcur j ch hj2 hcond
      · rw [if_neg (by simpa using hsel)] at h
        rw [harith]
        exact ih (i0 + 1) buf ptrs vals b p v h hcur j ch hj2 hcond

theorem tsma_invoke_core_val_inv {aP aB : Bool} {ds : List Channel} {vl : List ℚ}
    {data : TsmaData} {st : Int} {vl2 : List ℚ} {d2 : TsmaData}
    (h : tsma_invoke_core aP aB ds vl data = some (st, vl2, d2)) :
    vl2 = vl ∨ ∃ (buf : List ℚ) (ptrs : Option (List Nat)) (b : List ℚ)
      (p : Option (List Nat)),
      tsma_process data.data_sources data.window.toNat ds 0 buf ptrs vl =
        some (b, p, vl2) := by
  simp only [tsma_invoke_core] at h
  split at h
  next buffer hbuf =>
    split at h
    next b2 p2 v2 hproc =>
      obtain ⟨-, hv, -⟩ : _ ∧ _ ∧ _ := by simpa using h
      refine Or.inr ⟨buffer, data.window_ptr, b2, p2, ?_⟩
      rw [← hv]
      exact hproc
    next => exact absurd h (by simp)
  next hbuf =>
    split at h
    next buffer ptr hb hp =>
      split at h
      next b2 p2 v2 hproc =>
        obtain ⟨-, hv, -⟩ : _ ∧ _ ∧ _ := by simpa using h
        refine Or.inr ⟨buffer, some ptr, b2, p2, ?_⟩
        rw [← hv]
        exact hproc
      next => exact absurd h (by simp)
    next =>
      obtain ⟨-, hv, -⟩ : _ ∧ _ ∧ _ := by simpa using h
      exact Or.inl hv.symm

/-- Claim C4: channel selection.  An empty (never configured, hence NULL)
allow-list selects every channel; a non-empty allow-list selects a channel iff
its name case-insensitively equals some entry; and a channel that is not
selected has its value left unchanged by the per-record entry point. -/
theorem tsma_selector_spec :
    (∀ name, is_selected none name = true) ∧
    (∀ l name, is_selected (some l) name = true ↔ ∃ s ∈ l, strcaseEq name s = true) ∧
    (∀ (aP aB : Bool) (ds : List Channel) (vl : List ℚ) (data : TsmaData)
       (st : Int) (vl2 : List ℚ) (ud2 : Option (Option TsmaData)) (j : Nat)
       (ch : Channel),
      tsma_invoke aP aB (some ds) (some vl) (some (some data)) =
        some (st, some vl2, ud2) →
      ds[j]? = some ch →
      is_selected data.data_sources ch.name = false →
      vl2[j]? = vl[j]?) := by
  refine ⟨fun _ => rfl, ?_, ?_⟩
  · intro l name
    simp [is_selected, List.any_eq_true]
  · intro aP aB ds vl data st vl2 ud2 j ch hinv hj hsel
    simp only [tsma_invoke] at hinv
    cases hcore : tsma_invoke_core aP aB ds vl data with
    | none =>
      rw [hcore] at hinv
      exact absurd hinv (by simp)
    | some trip =>
      obtain ⟨st2, vl3, d3⟩ := trip
      rw [hcore] at hinv
      obtain ⟨-, hv, -⟩ : _ ∧ _ ∧ _ := by simpa using hinv
      rw [← hv]
      rcases tsma_invoke_core_val_inv hcore with hsame | ⟨buf, ptrs, b, p, hproc⟩
      · rw [hsame]
      · have := tsma_process_skip_val data.data_sources data.window.toNat ds 0 buf
          ptrs vl b p vl3 hproc j ch hj (Or.inl hsel)
        simpa using this

/-- Witness for C4: the spec's example — allow-list `["temp"]`, channels
`temp` and `humidity` with values 30 and 50, window 2: `humidity` is not
selected and keeps its value 50 while `temp` was replaced by its mean 15. -/
theorem tsma_selector_spec_witness :
    is_selected none "humidity" = true ∧
    (is_selected (some ["temp"]) "humidity" = true ↔
      ∃ s ∈ ["temp"], strcaseEq "humidity" s = true) ∧
    ([15, 50] : List ℚ)[1]? = ([30, 50] : List ℚ)[1]? :=
  ⟨tsma_selector_spec.1 "humidity",
   tsma_selector_spec.2.1 ["temp"] "humidity",
   tsma_selector_spec.2.2 true true [⟨"temp", 1⟩, ⟨"humidity", 1⟩] [30, 50]
     { window := 2, window_ptr := none, window_buffer := none,
       data_sources := some ["temp"] }
     0 [15, 50]
     (some (some { window := 2, window_ptr := some [1, 0],
                   window_buffer := some [30, 0, 0, 0],
                   data_sources := some ["temp"] }))
     1 ⟨"humidity", 1⟩ (by with_unfolding_all decide) (by decide) (by decide)⟩

theorem tsma_invoke_core_init_inv {aP aB : Bool} {ds : List Channel} {vl : List ℚ}
    {data : TsmaData} {st : Int} {vl2 : List ℚ} {d2 : TsmaData} {buf0 : List ℚ}
    (hbuf : data.window_buffer = some buf0)
    (h : tsma_invoke_core aP aB ds vl data = some (st, vl2, d2)) :
    st = FC_TARGET_CONTINUE ∧ ∃ b p,
      tsma_process data.data_sources data.window.toNat ds 0 buf0 data.window_ptr vl =
        some (b, p, vl2) ∧
      d2 = { data with window_buffer := some b, window_ptr := p } := by
  simp only [tsma_invoke_core] at h
  split at h
  next buffer hbuf2 =>
    obtain rfl : buffer = buf0 := by
      rw [hbuf] at hbuf2
      exact (Option.some.injEq _ _).mp hbuf2.symm
    split at h
    next b2 p2 v2 hproc =>
      obtain ⟨hst, hv, hd⟩ : _ ∧ _ ∧ _ := by simpa using h
      refine ⟨hst.symm, b2, p2, ?_, hd.symm⟩
      rw [← hv]
      exact hproc
    next => exact absurd h (by simp)
  next hbuf2 =>
    rw [hbuf] at hbuf2
    cases hbuf2

/-- Claim C7: a selected channel whose value kind is not the numeric gauge is
logged and skipped: its value, its window slice and its cursor are unchanged,
the remaining channels are still processed, and the call still returns the
"continue" status. -/
theorem tsma_non_gauge_passthrough
    (aP aB : Bool) (ds : List Channel) (vl : List ℚ) (data : TsmaData)
    (st : Int) (vl2 : List ℚ) (d2 : TsmaData) (buf0 : List ℚ) (j : Nat) (ch : Channel)
    (hbuf : data.window_buffer = some buf0)
    (hcur : ∀ k q, ptrGet data.window_ptr k = some q → q < data.window.toNat)
    (hinv : tsma_invoke aP aB (some ds) (some vl) (some (some data)) =
      some (st, some vl2, some (some d2)))
    (hch : ds[j]? = some ch)
    (_hsel : is_selected data.data_sources ch.name = true)
    (hng : ch.type ≠ DS_TYPE_GAUGE) :
    st = FC_TARGET_CONTINUE ∧
    vl2[j]? = vl[j]? ∧
    ptrGet d2.window_ptr j = ptrGet data.window_ptr j ∧
    ∃ buf1, d2.window_buffer = some buf1 ∧
      ∀ m, j * data.window.toNat ≤ m →
        m < j * data.window.toNat + data.window.toNat → buf1[m]? = buf0[m]? := by
  simp only [tsma_invoke] at hinv
  cases hcore : tsma_invoke_core aP aB ds vl data with
  | none =>
    rw [hcore] at hinv
    exact absurd hinv (by simp)
  | some trip =>
    obtain ⟨st2, vl3, d3⟩ := trip
    rw [hcore] at hinv
    obtain ⟨hst2, hv3, hd3⟩ : _ ∧ _ ∧ _ := by simpa using hinv
    obtain ⟨hst0, b2, p2, hproc, hd2⟩ := tsma_invoke_core_init_inv hbuf hcore
    have hval := tsma_process_skip_val data.data_sources data.window.toNat ds 0 buf0
      data.window_ptr vl b2 p2 vl3 hproc j ch hch (Or.inr hng)
    have hstate := tsma_process_skip_state data.data_sources data.window.toNat ds 0 buf0
      data.window_ptr vl b2 p2 vl3 hproc hcur j ch hch (Or.inr hng)
    refine ⟨by rw [← hst2, hst0], ?_, ?_, ?_⟩
    · rw [← hv3]
      simpa using hval
    · rw [← hd3, hd2]
      simpa using hstate.1
    · refine ⟨b2, by rw [← hd3, hd2], ?_⟩
      intro m hm1 hm2
      have := hstate.2 m (by simpa using hm1) (by simpa using hm2)
      simpa using this

/-- Witness for C7: a single counter-kind channel with window 1 passes
through unmodified and the call reports "continue". -/
theorem tsma_non_gauge_passthrough_witness :
    (0 : Int) = FC_TARGET_CONTINUE ∧
    ([7] : List ℚ)[0]? = ([7] : List ℚ)[0]? ∧
    ptrGet (some [0]) 0 = ptrGet (some [0]) 0 ∧
    ∃ buf1, some [0] = some buf1 ∧
      ∀ m, 0 * ((1 : Int)).toNat ≤ m →
        m < 0 * ((1 : Int)).toNat + ((1 : Int)).toNat → buf1[m]? = ([0] : List ℚ)[m]? :=
  tsma_non_gauge_passthrough true true [⟨"a", 0⟩] [7]
    { window := 1, window_ptr := some [0], window_buffer := some [0],
      data_sources := none }
    0 [7]
    { window := 1, window_ptr := some [0], window_buffer := some [0],
      data_sources := none }
    [0] 0 ⟨"a", 0⟩ rfl
    (by
      intro k q hk
      cases k with
      | zero =>
        have hk2 : (([0] : List Nat))[0]? = some q := hk
        simp at hk2
        show q < 1
        omega
      | succ n =>
        have hk2 : (([0] : List Nat))[n + 1]? = some q := hk
        simp at hk2)
    (by decide) (by decide) (by decide) (by decide)

/-- Claim C3 meets a code bug: the lazy initialization allocates `window`
cursors (`calloc(1, data->window * sizeof(int))`), not `channel_count`
cursors, although `tsma_invoke_gauge` indexes the cursor array by channel.
With window 1 and a first record of two gauge channels, the buffer gets the
claimed `2 × 1` zeroed slots, but only one cursor exists: processing channel
1 accesses cursor slot 1 of a one-element array — undefined behavior
(`none`), while the claim implies a defined update for every channel. -/
theorem tsma_cursor_alloc_bug :
    tsma_invoke true true (some [⟨"a", 1⟩, ⟨"b", 1⟩]) (some [1, 2])
      (some (some { window := 1, window_ptr := none, window_buffer := none,
                    data_sources := none })) = none := by
  with_unfolding_all decide

/-- Claim C6 meets a code bug: if the cursor calloc fails while the buffer
calloc succeeds, the triggering call does return the non-zero `-EINVAL`
(first conjunct) but leaves `window_buffer` non-NULL with a NULL
`window_ptr`; the next call's re-check tests only `window_buffer`, so it
skips allocation and dereferences the NULL cursor array (second conjunct,
`none` = crash) instead of failing the same way. -/
theorem tsma_alloc_failure_bug :
    (tsma_invoke false true (some [⟨"t", 1⟩]) (some [5])
      (some (some { window := 1, window_ptr := none, window_buffer := none,
                    data_sources := none })) =
      some (-EINVAL, some [5],
        some (some { window := 1, window_ptr := none, window_buffer := some [0],
                     data_sources := none })) ∧ -EINVAL ≠ 0) ∧
    tsma_invoke true true (some [⟨"t", 1⟩]) (some [5])
      (some (some { window := 1, window_ptr := none, window_buffer := some [0],
                    data_sources := none })) = none := by
  exact ⟨⟨by with_unfolding_all decide, by decide⟩, by with_unfolding_all decide⟩

end TargetSma
